import Mathlib

/-!
Verification of the onion-skin frame cache and background precache engine.

Shallow embedding of the cache module (cache.py) and of the background
caching module (async_cache.py) of the "B onion skin" package.  The Python
module-level globals (_frame_cache, _batch_cache, _dirty_frames,
_max_cache_size, _cache_hits, _cache_misses, _last_frame) become fields of
an explicit CacheState record; the OrderedDict _frame_cache is a list of
key-value pairs whose head is the least recently inserted entry.  The
module constant _max_cache_size = 500 becomes the capacity field,
defaulting to 500 in initState (the spec documents a capacity override on
the configuration surface).  Vertex coordinates (floats in the source) are
modelled as integer triples: no claim computes on coordinate values, only
on buffer emptiness and equality of stored geometry.
-/

/-!
Embedding of async_cache.py.  The collaborators it reads
(drawing.get_frame_range, the settings properties, the scene) are passed
as explicit arguments; the geometry extraction drawing.cache_frame, a
module absent from this package, is an external effect whose outcome is an
argument of the step function.
-/

namespace OnionSkin

/-- Primitive kind tag carried with cached geometry
(prim_type strings in the source). -/
inductive PrimType where
  | LINES
  | TRIANGLES
deriving DecidableEq, Repr

/-- A vertex position (a float triple in the source). -/
abbrev Vert := Int × Int × Int

/-- One index tuple (a pair for lines, a triple for triangles). -/
abbrev VIndex := List Nat

/-- The value stored for a frame in _frame_cache:
the (verts, indices, prim_type) triple. -/
structure Geom where
  verts : List Vert
  indices : List VIndex
  primType : PrimType
deriving DecidableEq, Repr

/-- A GPU batch as produced by batch_for_shader: fully determined by the
geometry it was built from (the shader is a fixed builtin). -/
structure Batch where
  geom : Geom
deriving DecidableEq, Repr

/-- The batch construction performed by batch_for_shader on the stored
data; the list/ndarray conversions in get_batch are representation-only,
so the built batch is determined by the stored geometry. -/
def buildBatch (g : Geom) : Batch := ⟨g⟩

/-- The module-level cache state of cache.py.  entries is the OrderedDict
_frame_cache (head = least recently inserted/touched); batches is the dict
_batch_cache; dirty is the set _dirty_frames; capacity is _max_cache_size;
hits/misses are _cache_hits/_cache_misses; lastFrame is _last_frame. -/
structure CacheState where
  entries : List (Int × Geom)
  batches : List (Int × Batch)
  dirty : Finset Int
  capacity : Nat
  hits : Nat
  misses : Nat
  lastFrame : Int
deriving DecidableEq

/-- Default value of _max_cache_size in the source. -/
def defaultMaxCacheSize : Nat := 500

/-- The state at module import: all containers empty, _last_frame = -999. -/
def initState : CacheState :=
  { entries := [], batches := [], dirty := ∅,
    capacity := defaultMaxCacheSize, hits := 0, misses := 0,
    lastFrame := -999 }

/-- Deletion of a key from a dict modelled as an association list
(del d[k], a no-op when the key is absent, as in the guarded deletions of
the source). -/
def eraseKey (f : Int) (l : List (Int × α)) : List (Int × α) :=
  l.filter (fun p => p.1 != f)

/-- clear_cache: empties every container and resets the counters and
_last_frame (the object-hash dict of the source is not modelled: no claim
touches it). -/
def clear_cache (s : CacheState) : CacheState :=
  { s with entries := [], batches := [], dirty := ∅,
           hits := 0, misses := 0, lastFrame := -999 }

/-- is_frame_cached: false when the frame is dirty, else membership in
_frame_cache. -/
def is_frame_cached (s : CacheState) (frame : Int) : Bool :=
  if frame ∈ s.dirty then false
  else (List.lookup frame s.entries).isSome

/-- mark_frame_dirty: adds the frame to _dirty_frames and deletes its
batch from _batch_cache if present. -/
def mark_frame_dirty (s : CacheState) (frame : Int) : CacheState :=
  { s with dirty := insert frame s.dirty,
           batches := eraseKey frame s.batches }

/-- mark_all_dirty: adds every key of _frame_cache to _dirty_frames and
clears _batch_cache. -/
def mark_all_dirty (s : CacheState) : CacheState :=
  { s with dirty := s.dirty ∪ (s.entries.map Prod.fst).toFinset,
           batches := [] }

/-- The while-loop at the end of add_to_cache: pops the first (oldest)
entry of _frame_cache and deletes its batch, while the size exceeds the
capacity. -/
def evictLRU (cap : Nat) :
    List (Int × Geom) → List (Int × Batch) →
    List (Int × Geom) × List (Int × Batch)
  | [], batches => ([], batches)
  | e :: rest, batches =>
    if rest.length + 1 ≤ cap then (e :: rest, batches)
    else evictLRU cap rest (eraseKey e.1 batches)

/-- The empty-data test at the top of add_to_cache.  With numpy present
the source tests only the vertex buffer for emptiness (verts.size == 0 for
an ndarray, len(verts) == 0 for a list); without numpy it tests both
buffers.  The None guard is not modelled: buffers are plain sequences
here. -/
def emptyDataCheck (hasNumpy : Bool) (verts : List Vert)
    (indices : List VIndex) : Bool :=
  if hasNumpy then verts.isEmpty else (verts.isEmpty || indices.isEmpty)

/-- add_to_cache: rejects empty data, else increments the miss counter,
stores the geometry and moves the frame to the most-recent end
(_frame_cache[frame] = data then move_to_end), discards the dirty flag,
deletes any stale batch, then evicts oldest entries while the size exceeds
the capacity. -/
def add_to_cache (s : CacheState) (hasNumpy : Bool) (frame : Int)
    (verts : List Vert) (indices : List VIndex) (prim : PrimType) :
    CacheState :=
  if emptyDataCheck hasNumpy verts indices then s
  else
    let entries1 := eraseKey frame s.entries ++ [(frame, ⟨verts, indices, prim⟩)]
    let batches1 := eraseKey frame s.batches
    let ep := evictLRU s.capacity entries1 batches1
    { s with entries := ep.1, batches := ep.2,
             dirty := s.dirty.erase frame,
             misses := s.misses + 1 }

/-- get_batch: None for a dirty frame; a memoized batch counts a hit; else
the batch is built from the stored raw data, memoized, and counts a hit.
The buildOk argument models whether batch_for_shader succeeds (its
exception is caught and yields None without memoizing a sentinel). -/
def get_batch (s : CacheState) (frame : Int) (buildOk : Bool) :
    Option Batch × CacheState :=
  if frame ∈ s.dirty then (none, s)
  else
    match List.lookup frame s.batches with
    | some b => (some b, { s with hits := s.hits + 1 })
    | none =>
      match List.lookup frame s.entries with
      | none => (none, s)
      | some g =>
        if buildOk then
          (some (buildBatch g),
           { s with batches := s.batches ++ [(frame, buildBatch g)],
                    hits := s.hits + 1 })
        else (none, s)

/-- The statistics snapshot returned by get_cache_stats (hit_rate, a float
in the source, is modelled as an exact rational). -/
structure CacheStats where
  size : Nat
  maxSize : Nat
  hits : Nat
  misses : Nat
  hitRate : ℚ
  dirty : Nat
deriving DecidableEq, Repr

/-- get_cache_stats. -/
def get_cache_stats (s : CacheState) : CacheStats :=
  { size := s.entries.length, maxSize := s.capacity,
    hits := s.hits, misses := s.misses,
    hitRate := if s.hits + s.misses > 0
               then (s.hits : ℚ) / ((s.hits : ℚ) + (s.misses : ℚ)) * 100
               else 0,
    dirty := s.dirty.card }

/-- invalidate_frames_near: iterates over a snapshot of the keys of
_frame_cache and marks each frame within the radius dirty. -/
def invalidate_frames_near (s : CacheState) (center : Int) (radius : Int) :
    CacheState :=
  (s.entries.map Prod.fst).foldl
    (fun acc f =>
      if ((f - center).natAbs : Int) ≤ radius then mark_frame_dirty acc f
      else acc) s

/-- evict_distant_frames: collects the keys of _frame_cache whose distance
from the current frame exceeds keep_radius, then deletes each from
_frame_cache and from _batch_cache. -/
def evict_distant_frames (s : CacheState) (current : Int)
    (keepRadius : Int) : CacheState :=
  let toRemove := (s.entries.map Prod.fst).filter
      (fun f => decide (keepRadius < ((f - current).natAbs : Int)))
  { s with
      entries := s.entries.filter
        (fun p => !(decide (keepRadius < ((p.1 - current).natAbs : Int)))),
      batches := s.batches.filter (fun p => !(toRemove.contains p.1)) }

/-- Sort key of the candidate sort: absolute distance from the current
frame. -/
def distKey (current f : Int) : Nat := (f - current).natAbs

/-- One step of a stable insertion by the distance key: the new element
goes after every earlier element whose key is less than or equal, as a
stable sort keeps equal keys in encounter order. -/
def insertByDist (current : Int) (f : Int) : List Int → List Int
  | [] => [f]
  | g :: gs =>
    if distKey current g ≤ distKey current f then
      g :: insertByDist current f gs
    else f :: g :: gs

/-- The stable in-place sort frames.sort(key=lambda f: abs(f - current))
of the source, realized as a stable insertion sort (a stable sort by a
fixed key has a unique result, so this agrees with the source's sort). -/
def sortByDist (current : Int) (fs : List Int) : List Int :=
  fs.foldl (fun acc f => insertByDist current f acc) []

/-- The index list produced by range(step, look_ahead + 1, step): the
positive multiples of step that are at most lookAhead (empty when step is
zero, where the source raises). -/
def stepMultiples (step lookAhead : Nat) : List Nat :=
  (List.range (lookAhead / step)).map (fun k => step * (k + 1))

/-- The forward loop of get_precache_frames: frames current + i for each
enumerated offset i, kept when inside the range end and not cached. -/
def forwardCandidates (s : CacheState) (current : Int)
    (frameStep lookAhead : Nat) (rangeEnd : Int) : List Int :=
  ((stepMultiples frameStep lookAhead).map
      (fun i => current + Int.ofNat i)).filter
    (fun f => decide (f ≤ rangeEnd) && !(is_frame_cached s f))

/-- The backward loop of get_precache_frames: frames current - i for each
enumerated offset i, kept when inside the range start and not cached. -/
def backwardCandidates (s : CacheState) (current : Int)
    (frameStep lookAhead : Nat) (rangeStart : Int) : List Int :=
  ((stepMultiples frameStep lookAhead).map
      (fun i => current - Int.ofNat i)).filter
    (fun f => decide (rangeStart ≤ f) && !(is_frame_cached s f))

/-- get_precache_frames of async_cache.py.  current is
scene.frame_current; framesBefore, framesAfter and frameStep come from the
settings; rangeStart and rangeEnd are the result of the external
drawing.get_frame_range call; direction is the playback direction.
Forward candidates are collected for direction ≥ 0, backward candidates
for direction ≤ 0, each filtered by the frame range and by
is_frame_cached, then the merged list is sorted by distance from current
(stable, forward candidates first on ties) and truncated to 10. -/
def get_precache_frames (s : CacheState) (current : Int)
    (framesBefore framesAfter frameStep : Nat)
    (rangeStart rangeEnd : Int) (direction : Int) : List Int :=
  let lookAhead := max framesBefore framesAfter + 5
  let fwd : List Int :=
    if 0 ≤ direction then
      forwardCandidates s current frameStep lookAhead rangeEnd
    else []
  let bwd : List Int :=
    if direction ≤ 0 then
      backwardCandidates s current frameStep lookAhead rangeStart
    else []
  (sortByDist current (fwd ++ bwd)).take 10

/-- The scheduler state touched by one background step: the globals
_pending_frames and _is_caching of async_cache.py together with the shared
scene.frame_current position. -/
structure SchedState where
  pendingFrames : List Int
  isCaching : Bool
  sceneFrame : Int
deriving DecidableEq, Repr

/-- The environment one background step reads: the validity guards at the
top of _background_cache_step, the list get_precache_frames would return
when the pending queue is refilled, and the outcome of the external
drawing.cache_frame call — the scene frame position it leaves behind
(frameAfterExtraction, a function of the target frame and of the scene
frame before the call) and whether it raised (extractionRaises; the raise
is swallowed by the bare except, and no code follows the call inside the
try block, so the continuation is the same either way). -/
structure StepEnv where
  contextOk : Bool
  settingsOk : Bool
  enabled : Bool
  hasObjects : Bool
  precacheResult : List Int
  frameAfterExtraction : Int → Int → Int
  extractionRaises : Int → Bool

/-- One execution of the timer callback _background_cache_step.  Returns
the new scheduler state and whether the timer continues (the source
returns 0.05 to continue and None to stop). -/
def backgroundCacheStep (env : StepEnv) (s : SchedState) :
    SchedState × Bool :=
  if !env.contextOk then ({ s with isCaching := false }, false)
  else if !env.settingsOk then ({ s with isCaching := false }, false)
  else if !env.enabled || !env.hasObjects then
    ({ s with isCaching := false }, false)
  else
    let pending :=
      if s.pendingFrames.isEmpty then env.precacheResult
      else s.pendingFrames
    match pending with
    | [] => ({ s with pendingFrames := [], isCaching := false }, false)
    | frame :: rest =>
      let originalFrame := s.sceneFrame
      let movedFrame := env.frameAfterExtraction frame s.sceneFrame
      let restoredFrame :=
        if movedFrame ≠ originalFrame then originalFrame else movedFrame
      if rest.isEmpty then
        ({ pendingFrames := rest, isCaching := false,
           sceneFrame := restoredFrame }, false)
      else
        ({ pendingFrames := rest, isCaching := s.isCaching,
           sceneFrame := restoredFrame }, true)

/-- The cache-mutating operations of the module surface, used to express
reachability invariants over arbitrary call sequences. -/
inductive CacheOp where
  | add (hasNumpy : Bool) (frame : Int) (verts : List Vert)
        (indices : List VIndex) (prim : PrimType)
  | getBatch (frame : Int) (buildOk : Bool)
  | markDirty (frame : Int)
  | markAllDirty
  | invalidateNear (center radius : Int)
  | evictDistant (center keepRadius : Int)
  | clear

/-- The state transition of one operation. -/
def applyOp (s : CacheState) : CacheOp → CacheState
  | .add hn f v i p => add_to_cache s hn f v i p
  | .getBatch f b => (get_batch s f b).2
  | .markDirty f => mark_frame_dirty s f
  | .markAllDirty => mark_all_dirty s
  | .invalidateNear c r => invalidate_frames_near s c r
  | .evictDistant c r => evict_distant_frames s c r
  | .clear => clear_cache s

/-- Running a sequence of operations from a state. -/
def runOps (s : CacheState) (ops : List CacheOp) : CacheState :=
  ops.foldl applyOp s

def demoGeom : Geom := ⟨[(0, 0, 0)], [[0, 1]], PrimType.LINES⟩

def demoDistState : CacheState :=
  { initState with
      entries := [(40, demoGeom), (70, demoGeom), (100, demoGeom), (160, demoGeom)] }

def demoCached5 : CacheState :=
  add_to_cache initState true 5 demoGeom.verts demoGeom.indices demoGeom.primType

def demoDirty5 : CacheState := mark_frame_dirty demoCached5 5

def demoFullState : CacheState :=
  add_to_cache
    (add_to_cache
      (add_to_cache { initState with capacity := 3 }
        true 1 demoGeom.verts demoGeom.indices demoGeom.primType)
      true 2 demoGeom.verts demoGeom.indices demoGeom.primType)
    true 3 demoGeom.verts demoGeom.indices demoGeom.primType

/-- One recorded call to add_to_cache, for stating properties of call
sequences. -/
structure AddCall where
  hasNumpy : Bool
  frame : Int
  verts : List Vert
  indices : List VIndex
  prim : PrimType

/-- Execution of one recorded add_to_cache call. -/
def applyAdd (s : CacheState) (a : AddCall) : CacheState :=
  add_to_cache s a.hasNumpy a.frame a.verts a.indices a.prim

/-- Execution of a sequence of add_to_cache calls. -/
def applyAdds (s : CacheState) (calls : List AddCall) : CacheState :=
  calls.foldl applyAdd s

/-- A one-slot cache holding frame 1 with its batch built, used as a
concrete eviction scenario. -/
def demoOneSlot : CacheState :=
  { initState with
    capacity := 1
    entries := [(1, demoGeom)]
    batches := [(1, buildBatch demoGeom)] }

/-- A state whose only entry, frame 1, is also dirty, with capacity 1. -/
def demoDirtyFull : CacheState :=
  { initState with
    capacity := 1
    entries := [(1, demoGeom)]
    dirty := {1} }

/-- The invariant of claim C9: every dirty frame is absent from the batch
cache. -/
def dirtyBatchesDisjoint (s : CacheState) : Prop :=
  ∀ g ∈ s.dirty, List.lookup g s.batches = none

theorem lookup_cons_self {α : Type} (k : Int) (v : α) (l : List (Int × α)) :
    List.lookup k ((k, v) :: l) = some v := by
  simp [List.lookup]

theorem lookup_cons_ne {α : Type} {g k : Int} (v : α) (l : List (Int × α))
    (h : g ≠ k) : List.lookup g ((k, v) :: l) = List.lookup g l := by
  have hb : (g == k) = false := beq_eq_false_iff_ne.mpr h
  simp [List.lookup, hb]

theorem lookup_eq_none_iff {α : Type} (g : Int) (l : List (Int × α)) :
    List.lookup g l = none ↔ ∀ p ∈ l, p.1 ≠ g := by
  induction l with
  | nil => simp [List.lookup]
  | cons x xs ih =>
    cases x with
    | mk k v =>
      by_cases h : g = k
      · subst h
        rw [lookup_cons_self]
        simp
      · rw [lookup_cons_ne v xs h, ih]
        constructor
        · intro hall p hp
          rcases List.mem_cons.mp hp with h1 | h1
          · subst h1; exact Ne.symm h
          · exact hall p h1
        · intro hall p hp
          exact hall p (List.mem_cons_of_mem _ hp)

theorem lookup_append_of_forall_ne {α : Type} {g : Int}
    {l₁ : List (Int × α)} (l₂ : List (Int × α))
    (h : ∀ p ∈ l₁, p.1 ≠ g) :
    List.lookup g (l₁ ++ l₂) = List.lookup g l₂ := by
  induction l₁ with
  | nil => simp
  | cons x xs ih =>
    rw [List.cons_append]
    cases x with
    | mk k v =>
      have hk : g ≠ k := Ne.symm (h (k, v) (List.mem_cons_self _ _))
      rw [lookup_cons_ne v _ hk]
      exact ih (fun p hp => h p (List.mem_cons_of_mem _ hp))

theorem lookup_filter_none {α : Type} {g : Int} {l : List (Int × α)}
    (q : Int × α → Bool) (h : List.lookup g l = none) :
    List.lookup g (l.filter q) = none := by
  rw [lookup_eq_none_iff] at h ⊢
  exact fun p hp => h p (List.mem_of_mem_filter hp)

theorem eraseKey_forall_ne {α : Type} (f : Int) (l : List (Int × α)) :
    ∀ p ∈ eraseKey f l, p.1 ≠ f := by
  intro p hp
  have := List.mem_filter.mp hp
  exact bne_iff_ne.mp this.2

theorem lookup_eraseKey_self {α : Type} (f : Int) (l : List (Int × α)) :
    List.lookup f (eraseKey f l) = none :=
  (lookup_eq_none_iff f _).mpr (eraseKey_forall_ne f l)

theorem lookup_eraseKey_none {α : Type} {g : Int} {l : List (Int × α)}
    (f : Int) (h : List.lookup g l = none) :
    List.lookup g (eraseKey f l) = none :=
  lookup_filter_none _ h

theorem eraseKey_of_forall_ne {α : Type} {f : Int} {l : List (Int × α)}
    (h : ∀ p ∈ l, p.1 ≠ f) : eraseKey f l = l :=
  List.filter_eq_self.mpr (fun p hp => bne_iff_ne.mpr (h p hp))

theorem evictLRU_of_le {cap : Nat} {l : List (Int × Geom)}
    (b : List (Int × Batch)) (h : l.length ≤ cap) :
    evictLRU cap l b = (l, b) := by
  cases l with
  | nil => rfl
  | cons x rest =>
    rw [evictLRU]
    simp only [List.length_cons] at h
    simp [h]

theorem evictLRU_length_le (cap : Nat) (l : List (Int × Geom))
    (b : List (Int × Batch)) : (evictLRU cap l b).1.length ≤ cap := by
  induction l generalizing b with
  | nil => simp [evictLRU]
  | cons x rest ih =>
    rw [evictLRU]
    by_cases h : rest.length + 1 ≤ cap
    · simp [h]
    · simp [h, ih]

theorem evictLRU_succ {cap : Nat} {rest : List (Int × Geom)}
    (x : Int × Geom) (b : List (Int × Batch)) (h : rest.length = cap) :
    evictLRU cap (x :: rest) b = (rest, eraseKey x.1 b) := by
  rw [evictLRU]
  have h1 : ¬(rest.length + 1 ≤ cap) := by omega
  simp [h1, evictLRU_of_le _ (le_of_eq h)]

theorem evictLRU_batches_none {g : Int} {cap : Nat}
    {l : List (Int × Geom)} {b : List (Int × Batch)}
    (h : List.lookup g b = none) :
    List.lookup g (evictLRU cap l b).2 = none := by
  induction l generalizing b with
  | nil =>
    simp only [evictLRU]
    exact h
  | cons x rest ih =>
    rw [evictLRU]
    by_cases hc : rest.length + 1 ≤ cap
    · simp only [hc, if_true]
      exact h
    · simp only [hc, if_false]
      exact ih (lookup_eraseKey_none _ h)

theorem evictLRU_lookup_last {cap : Nat} {l : List (Int × Geom)}
    {f : Int} (e : Geom) (b : List (Int × Batch)) (hcap : 0 < cap)
    (h : ∀ p ∈ l, p.1 ≠ f) :
    List.lookup f (evictLRU cap (l ++ [(f, e)]) b).1 = some e := by
  induction l generalizing b with
  | nil =>
    rw [List.nil_append, evictLRU]
    have : ([] : List (Int × Geom)).length + 1 ≤ cap := by
      simp only [List.length_nil]
      omega
    simp only [this, if_true]
    exact lookup_cons_self f e []
  | cons x rest ih =>
    rw [List.cons_append, evictLRU]
    by_cases hc : (rest ++ [(f, e)]).length + 1 ≤ cap
    · simp only [hc, if_true]
      rw [show (x :: (rest ++ [(f, e)])) = (x :: rest) ++ [(f, e)] by simp,
        lookup_append_of_forall_ne _ h]
      exact lookup_cons_self f e []
    · simp only [hc, if_false]
      exact ih _ (fun p hp => h p (List.mem_cons_of_mem _ hp))

theorem evictLRU_evicted_batch_none {g : Int} {cap : Nat}
    {l : List (Int × Geom)} {b : List (Int × Batch)}
    (hmem : g ∈ l.map Prod.fst)
    (
 hout : List.lookup g (evictLRU cap l b).1 = none) :
    List.lookup g (evictLRU cap l b).2 = none := by
  induction l generalizing b with
  | nil => simp at hmem
  | cons x rest ih =>
    rw [evictLRU] at hout ⊢
    by_cases hc : rest.length + 1 ≤ cap
    · simp only [hc, if_true] at hout
      exfalso
      rw [lookup_eq_none_iff] at hout
      rcases List.mem_map.mp hmem with ⟨p, hp, hpg⟩
      exact hout p hp hpg
    · simp only [hc, if_false] at hout ⊢
      by_cases hrest : g ∈ rest.map Prod.fst
      · exact ih hrest hout
      · have hx : g = x.1 := by
          rcases List.mem_map.mp hmem with ⟨p, hp, hpg⟩
          rcases List.mem_cons.mp hp with h1 | h1
          · rw [h1] at hpg; omega
          · exact absurd (List.mem_map.mpr ⟨p, h1, hpg⟩) hrest
        subst hx
        exact evictLRU_batches_none (lookup_eraseKey_self _ _)

/-- C2 (amended): add_to_cache with zero vertices leaves the cache state
exactly unchanged for every frame and primitive kind; add_to_cache with
zero indices is a no-op only when numpy is unavailable (with numpy
available the indices buffer is not checked); in particular
add(F, [], [], TRIANGLES) changes nothing in either environment. -/
theorem add_empty_geometry : 
    (∀ (s : CacheState) (hn : Bool) (f : Int) (i : List VIndex) (p : PrimType),
       add_to_cache s hn f [] i p = s) ∧
    (∀ (s : CacheState) (f : Int) (v : List Vert) (p : PrimType),
       add_to_cache s false f v [] p = s) ∧
    (∀ (s : CacheState) (hn : Bool) (f : Int) (p : PrimType),
       add_to_cache s hn f [] [] p = s) := by
  refine ⟨fun s hn f i p => ?_, fun s f v p => ?_, fun s hn f p => ?_⟩
  · cases hn <;> simp [add_to_cache, emptyDataCheck]
  · simp [add_to_cache, emptyDataCheck]
  · cases hn <;> simp [add_to_cache, emptyDataCheck]

/-- C2 (counterexample): with numpy available, add_to_cache with one
vertex and zero indices is not a no-op — it increments the miss counter
and stores the entry, so the claim that zero indices always yield an
unchanged state is false on the code. -/
theorem add_empty_indices_not_noop :
    (add_to_cache initState true 7 [(0, 0, 0)] [] PrimType.TRIANGLES).misses = 1 ∧
    add_to_cache initState true 7 [(0, 0, 0)] [] PrimType.TRIANGLES ≠ initState := by
  constructor
  · decide
  · decide

/-- C3 (amended): evict_distant_frames hard-removes exactly the entries
whose absolute frame distance from the center exceeds keepRadius and
leaves the dirty set untouched; in the concrete scenario with entries at
frames 40, 70, 100, 160, center 100 and keepRadius 50, the frames 40 and
160 (both at distance 60) are removed and 70, 100 remain. -/
theorem evict_distant_exact :
    (∀ (s : CacheState) (c r : Int),
       (evict_distant_frames s c r).entries
         = s.entries.filter (fun p => decide (((p.1 - c).natAbs : Int) ≤ r)) ∧
       (evict_distant_frames s c r).dirty = s.dirty) ∧
    ((evict_distant_frames demoDistState 100 50).entries.map Prod.fst = [70, 100]) := by
  refine ⟨fun s c r => ⟨?_, rfl⟩, by decide⟩
  show s.entries.filter _ = s.entries.filter _
  refine List.filter_congr (fun p _ => ?_)
  rw [← decide_not]
  exact decide_eq_decide.mpr not_lt

/-- C3 (counterexample): in the claimed scenario (entries 40, 70, 100,
160; center 100; keepRadius 50) frame 160 is removed as well — its
distance is 60 > 50 — so the claim that 70, 100 and 160 all remain is
false on the code. -/
theorem evict_distant_removes_160 :
    List.lookup 160 (evict_distant_frames demoDistState 100 50).entries = none ∧
    List.lookup 40 (evict_distant_frames demoDistState 100 50).entries = none ∧
    (List.lookup 70 (evict_distant_frames demoDistState 100 50).entries).isSome = true ∧
    (List.lookup 100 (evict_distant_frames demoDistState 100 50).entries).isSome = true := by
  decide

/-- C8: one execution of the background caching step leaves the shared
current-frame position equal to its value from before the step, on every
exit path, including the path where the geometry extraction raises (the
extraction may move the frame arbitrarily; the step restores it). -/
theorem background_step_restores_frame :
    ∀ (env : StepEnv) (s : SchedState),
      ((backgroundCacheStep env s).1).sceneFrame = s.sceneFrame := by
  intro env s
  unfold backgroundCacheStep
  split
  · rfl
  split
  · rfl
  split
  · rfl
  · generalize (if s.pendingFrames.isEmpty then env.precacheResult
                else s.pendingFrames) = pending
    cases pending with
    | nil => rfl
    | cons frame rest =>
      have hr : (if env.frameAfterExtraction frame s.sceneFrame ≠ s.sceneFrame
                 then s.sceneFrame
                 else env.frameAfterExtraction frame s.sceneFrame)
                  = s.sceneFrame := by
        split
        · rfl
        · next h => exact not_ne_iff.mp h
      dsimp only
      split <;> exact hr

/-- C5: marking a cached frame dirty makes is_frame_cached false and
get_batch return None while the frame stays present in the entries map;
in general a frame in the dirty set is never treated as cached regardless
of its presence in entries. -/
theorem dirty_precedence :
    ∀ (s : CacheState) (f : Int),
      ((List.lookup f s.entries).isSome = true →
        is_frame_cached (mark_frame_dirty s f) f = false ∧
        (∀ b, (get_batch (mark_frame_dirty s f) f b).1 = none) ∧
        (List.lookup f (mark_frame_dirty s f).entries).isSome = true) ∧
      (f ∈ s.dirty →
        is_frame_cached s f = false ∧
        (∀ b, (get_batch s f b).1 = none)) := by
  intro s f
  constructor
  · intro hmem
    have hd : f ∈ (mark_frame_dirty s f).dirty := by
      simp [mark_frame_dirty]
    refine ⟨?_, fun b => ?_, hmem⟩
    · simp [is_frame_cached, hd]
    · simp [get_batch, hd]
  · intro hd
    exact ⟨by simp [is_frame_cached, hd], fun b => by simp [get_batch, hd]⟩

/-- Witness for C5 at the concrete one-entry cache of frame 5. -/
theorem dirty_precedence_witness :
    (is_frame_cached (mark_frame_dirty demoCached5 5) 5 = false ∧
     (get_batch (mark_frame_dirty demoCached5 5) 5 true).1 = none ∧
     (List.lookup 5 (mark_frame_dirty demoCached5 5).entries).isSome = true) ∧
    (is_frame_cached demoDirty5 5 = false ∧
     (get_batch demoDirty5 5 true).1 = none) := by
  constructor
  · have h := (dirty_precedence demoCached5 5).1 (by decide)
    exact ⟨h.1, h.2.1 true, h.2.2⟩
  · have h := (dirty_precedence demoDirty5 5).2 (by decide)
    exact ⟨h.1, h.2 true⟩

/-- C6: a successful add_to_cache on a dirty frame (non-empty geometry,
positive capacity) clears the dirty flag and drops any stale batch in the
same operation, after which is_frame_cached is true and the next
get_batch builds its batch from the newly stored geometry.  The add is a
single state transition of the embedding, so there is no intermediate
observable state between the geometry store and the dirty clear. -/
theorem dirty_clear_on_readd :
    ∀ (s : CacheState) (hn : Bool) (f : Int) (v : List Vert)
      (i : List VIndex) (p : PrimType),
      f ∈ s.dirty → 0 < s.capacity → emptyDataCheck hn v i = false →
      f ∉ (add_to_cache s hn f v i p).dirty ∧
      List.lookup f (add_to_cache s hn f v i p).batches = none ∧
      is_frame_cached (add_to_cache s hn f v i p) f = true ∧
      (get_batch (add_to_cache s hn f v i p) f true).1
        = some (buildBatch ⟨v, i, p⟩) := by
  intro s hn f v i p _hdirty hcap hne
  have hlook : List.lookup f (add_to_cache s hn f v i p).entries
      = some ⟨v, i, p⟩ := by
    simp only [add_to_cache, hne, if_false]
    exact evictLRU_lookup_last _ _ hcap (eraseKey_forall_ne f s.entries)
  have hbat : List.lookup f (add_to_cache s hn f v i p).batches = none := by
    simp only [add_to_cache, hne, if_false]
    exact evictLRU_batches_none (lookup_eraseKey_self f s.batches)
  have hnd : f ∉ (add_to_cache s hn f v i p).dirty := by
    simp only [add_to_cache, hne, if_false]
    exact Finset.not_mem_erase f s.dirty
  refine ⟨hnd, hbat, ?_, ?_⟩
  · simp [is_frame_cached, hnd, hlook]
  · simp [get_batch, hnd, hbat, hlook]

theorem dirty_clear_on_readd_witness :
    5 ∉ (add_to_cache demoDirty5 true 5 [(1, 1, 1)] [[0, 1, 2]] PrimType.TRIANGLES).dirty ∧
    (get_batch (add_to_cache demoDirty5 true 5 [(1, 1, 1)] [[0, 1, 2]] PrimType.TRIANGLES) 5 true).1
      = some (buildBatch ⟨[(1, 1, 1)], [[0, 1, 2]], PrimType.TRIANGLES⟩) := by
  have h := dirty_clear_on_readd demoDirty5 true 5 [(1, 1, 1)] [[0, 1, 2]]
    PrimType.TRIANGLES (by decide) (by decide) (by decide)
  exact ⟨h.1, h.2.2.2⟩

theorem get_batch_entries_eq (s : CacheState) (f : Int) (b : Bool) :
    ((get_batch s f b).2).entries = s.entries := by
  unfold get_batch
  split
  · rfl
  split
  · rfl
  split
  · rfl
  split <;> rfl

/-- C1 (amended): get_batch does not promote recency — it never changes
the entries list — so eviction order is pure insertion order: when the
cache is full and a fresh frame is added, the first-inserted entry is
evicted even if it was just read through get_batch.  Inserting
capacity + 1 distinct frames still evicts exactly the first-inserted
frame.  Concretely, with capacity 3 and frames 1, 2, 3 inserted, a
get_batch on frame 1 followed by adding frame 4 leaves frames 2, 3, 4. -/
theorem lru_insertion_order :
    (∀ (s : CacheState) (f : Int) (b : Bool),
       ((get_batch s f b).2).entries = s.entries) ∧
    (∀ (s : CacheState) (hn : Bool) (f : Int) (v : List Vert)
       (i : List VIndex) (p : PrimType),
       0 < s.capacity → s.entries.length = s.capacity →
       (∀ q ∈ s.entries, q.1 ≠ f) →
       emptyDataCheck hn v i = false →
       (add_to_cache s hn f v i p).entries
         = s.entries.tail ++ [(f, ⟨v, i, p⟩)]) ∧
    (demoFullState.entries.map Prod.fst = [1, 2, 3] ∧
     (add_to_cache (get_batch demoFullState 1 true).2
         true 4 demoGeom.verts demoGeom.indices demoGeom.primType).entries.map
       Prod.fst = [2, 3, 4]) := by
  refine ⟨get_batch_entries_eq, ?_, by decide, by decide⟩
  intro s hn f v i p hcap hlen hne hcheck
  obtain ⟨entries, batches, dirty, cap, hits, misses, lastF⟩ := s
  dsimp only at hcap hlen hne ⊢
  simp only [add_to_cache, hcheck, Bool.false_eq_true, if_false]
  rw [eraseKey_of_forall_ne hne]
  cases entries with
  | nil =>
    simp only [List.length_nil] at hlen
    omega
  | cons x rest =>
    simp only [List.length_cons] at hlen
    rw [List.cons_append, evictLRU_succ x _ (by simpa using hlen)]
    rfl

/-- C1 (counterexample): with capacity 3 and frames 1, 2, 3 inserted in
order, touching frame 1 via get_batch and then adding frame 4 evicts the
touched frame 1 and keeps the never-touched frame 2 — the opposite of the
claimed touch-promotes-recency behavior. -/
theorem lru_touch_counterexample :
    List.lookup 1 (add_to_cache (get_batch demoFullState 1 true).2
        true 4 demoGeom.verts demoGeom.indices demoGeom.primType).entries = none ∧
    (List.lookup 2 (add_to_cache (get_batch demoFullState 1 true).2
        true 4 demoGeom.verts demoGeom.indices demoGeom.primType).entries).isSome
      = true := by
  decide

theorem lru_insertion_order_witness :
    (add_to_cache demoFullState true 4
        demoGeom.verts demoGeom.indices demoGeom.primType).entries
      = demoFullState.entries.tail ++ [(4, demoGeom)] :=
  lru_insertion_order.2.1 demoFullState true 4 demoGeom.verts demoGeom.indices
    demoGeom.primType (by decide) (by decide) (by decide) (by decide)

theorem add_capacity_eq (s : CacheState) (hn : Bool) (f : Int)
    (v : List Vert) (i : List VIndex) (p : PrimType) :
    (add_to_cache s hn f v i p).capacity = s.capacity := by
  unfold add_to_cache
  split <;> rfl

theorem add_length_le (s : CacheState) (hn : Bool) (f : Int)
    (v : List Vert) (i : List VIndex) (p : PrimType)
    (h : s.entries.length ≤ s.capacity) :
    (add_to_cache s hn f v i p).entries.length ≤ s.capacity := by
  unfold add_to_cache
  split
  · exact h
  · exact evictLRU_length_le _ _ _

theorem mem_keys_of_lookup_isSome {α : Type} {g : Int} {l : List (Int × α)}
    (h : (List.lookup g l).isSome = true) : g ∈ l.map Prod.fst := by
  by_contra hmem
  rw [(lookup_eq_none_iff g l).mpr (fun p hp hpg =>
    hmem (List.mem_map.mpr ⟨p, hp, hpg⟩))] at h
  simp at h

/-- C4: starting from any state with at most capacity entries, after
every add_to_cache call of any sequence the number of entries is at most
the capacity (eviction runs inside the same call), and every frame
evicted by an add loses its built batch along with its geometry. -/
theorem capacity_invariant :
    (∀ (s : CacheState) (calls : List AddCall),
       s.entries.length ≤ s.capacity →
       (applyAdds s calls).entries.length ≤ s.capacity) ∧
    (∀ (s : CacheState) (hn : Bool) (f : Int) (v : List Vert)
       (i : List VIndex) (p : PrimType) (g : Int),
       (List.lookup g s.entries).isSome = true →
       List.lookup g (add_to_cache s hn f v i p).entries = none →
       List.lookup g (add_to_cache s hn f v i p).batches = none) := by
  constructor
  · intro s calls
    induction calls generalizing s with
    | nil => exact fun h => h
    | cons a rest ih =>
      intro h
      have h1 : (applyAdd s a).entries.length ≤ (applyAdd s a).capacity := by
        simp only [applyAdd, add_capacity_eq]
        exact add_length_le _ _ _ _ _ _ h
      have h2 := ih (applyAdd s a) h1
      simp only [applyAdd, add_capacity_eq] at h2
      simpa only [applyAdds, List.foldl_cons] using h2
  · intro s hn f v i p g hin hout
    by_cases hch : emptyDataCheck hn v i = true
    · simp only [add_to_cache, hch, if_true] at hout
      rw [hout] at hin
      simp at hin
    · rw [Bool.not_eq_true] at hch
      simp only [add_to_cache, hch, Bool.false_eq_true, if_false] at hout ⊢
      refine evictLRU_evicted_batch_none ?_ hout
      rcases List.mem_map.mp (mem_keys_of_lookup_isSome hin) with ⟨q, hq, hqg⟩
      by_cases hgf : g = f
      · subst hgf
        exact List.mem_map.mpr ⟨(g, ⟨v, i, p⟩), by simp, rfl⟩
      · refine List.mem_map.mpr ⟨q, ?_, hqg⟩
        refine List.mem_append_left _ ?_
        refine List.mem_filter.mpr ⟨hq, ?_⟩
        rw [hqg]
        exact bne_iff_ne.mpr hgf

theorem capacity_invariant_witness :
    (applyAdds initState
        [⟨true, 5, [(0, 0, 0)], [[0, 1]], PrimType.LINES⟩]).entries.length
      ≤ initState.capacity ∧
    List.lookup 1 (add_to_cache demoOneSlot
        true 2 demoGeom.verts demoGeom.indices demoGeom.primType).batches
      = none := by
  constructor
  · exact capacity_invariant.1 initState _ (by decide)
  · exact capacity_invariant.2 demoOneSlot
      true 2 demoGeom.verts demoGeom.indices demoGeom.primType 1
      (by decide) (by decide)

/-- C10: eviction never shrinks the dirty set — a frame evicted by LRU
overflow inside add_to_cache stays dirty if it was dirty, and
evict_distant_frames leaves the dirty set exactly unchanged;
mark_frame_dirty on a frame absent from entries still adds it to the
dirty set, so the reported dirty count can exceed the cache size. -/
theorem eviction_keeps_dirty :
    (∀ (s : CacheState) (hn : Bool) (f : Int) (v : List Vert)
       (i : List VIndex) (p : PrimType) (g : Int),
       0 < s.capacity →
       (List.lookup g s.entries).isSome = true →
       List.lookup g (add_to_cache s hn f v i p).entries = none →
       g ∈ s.dirty → g ∈ (add_to_cache s hn f v i p).dirty) ∧
    (∀ (s : CacheState) (c r : Int),
       (evict_distant_frames s c r).dirty = s.dirty) ∧
    (∀ (s : CacheState) (f : Int),
       (List.lookup f s.entries).isSome = false →
       f ∈ (mark_frame_dirty s f).dirty) ∧
    ((get_cache_stats (mark_frame_dirty initState 1)).dirty
       > (get_cache_stats (mark_frame_dirty initState 1)).size) := by
  refine ⟨?_, fun s c r => rfl, fun s f _ => by simp [mark_frame_dirty],
    by decide⟩
  intro s hn f v i p g hcap hin hout hdirty
  by_cases hch : emptyDataCheck hn v i = true
  · simp only [add_to_cache, hch, if_true] at hout ⊢
    rw [hout] at hin
    simp at hin
  · rw [Bool.not_eq_true] at hch
    have hgf : g ≠ f := by
      intro hgf
      subst hgf
      have := evictLRU_lookup_last (f := g) ⟨v, i, p⟩
        (eraseKey g s.batches) hcap (eraseKey_forall_ne g s.entries)
      simp only [add_to_cache, hch, Bool.false_eq_true, if_false] at hout
      rw [hout] at this
      exact Option.noConfusion this
    simp only [add_to_cache, hch, Bool.false_eq_true, if_false]
    exact Finset.mem_erase.mpr ⟨hgf, hdirty⟩

/-- Witness for C10: frame 1, dirty and evicted by the add of frame 2 in
a one-slot cache, is still dirty afterwards; marking the absent frame 7
dirty in the empty cache adds it to the dirty set. -/
theorem eviction_keeps_dirty_witness :
    (1 : Int) ∈ (add_to_cache demoDirtyFull true 2
        demoGeom.verts demoGeom.indices demoGeom.primType).dirty ∧
    (7 : Int) ∈ (mark_frame_dirty initState 7).dirty :=
  ⟨eviction_keeps_dirty.1 demoDirtyFull true 2
      demoGeom.verts demoGeom.indices demoGeom.primType 1
      (by decide) (by decide) (by decide) (by decide),
   eviction_keeps_dirty.2.2.1 initState 7 (by decide)⟩

theorem lookup_append_none {α : Type} {g : Int} {l₁ : List (Int × α)}
    (l₂ : List (Int × α)) (h : List.lookup g l₁ = none) :
    List.lookup g (l₁ ++ l₂) = List.lookup g l₂ :=
  lookup_append_of_forall_ne l₂ ((lookup_eq_none_iff g l₁).mp h)

theorem disjoint_mark_frame_dirty {s : CacheState} (f : Int)
    (h : dirtyBatchesDisjoint s) :
    dirtyBatchesDisjoint (mark_frame_dirty s f) := by
  intro g hg
  simp only [mark_frame_dirty] at hg ⊢
  rcases Finset.mem_insert.mp hg with hgf | hgd
  · subst hgf
    exact lookup_eraseKey_self _ _
  · exact lookup_eraseKey_none _ (h g hgd)

theorem disjoint_add {s : CacheState} (hn : Bool) (f : Int)
    (v : List Vert) (i : List VIndex) (p : PrimType)
    (h : dirtyBatchesDisjoint s) :
    dirtyBatchesDisjoint (add_to_cache s hn f v i p) := by
  intro g hg
  by_cases hch : emptyDataCheck hn v i = true
  · simp only [add_to_cache, hch, if_true] at hg ⊢
    exact h g hg
  · rw [Bool.not_eq_true] at hch
    simp only [add_to_cache, hch, Bool.false_eq_true, if_false] at hg ⊢
    rcases Finset.mem_erase.mp hg with ⟨_, hgd⟩
    exact evictLRU_batches_none (lookup_eraseKey_none _ (h g hgd))

theorem lookup_append_single_ne {α : Type} {g f : Int} (x : α)
    (l : List (Int × α)) (h : g ≠ f) :
    List.lookup g (l ++ [(f, x)]) = List.lookup g l := by
  induction l with
  | nil =>
    rw [List.nil_append, lookup_cons_ne x [] h]
  | cons p l ih =>
    cases p with
    | mk k v =>
      by_cases hk : g = k
      · subst hk
        rw [List.cons_append, lookup_cons_self, lookup_cons_self]
      · rw [List.cons_append, lookup_cons_ne v _ hk, lookup_cons_ne v _ hk, ih]

theorem get_batch_dirty_eq (s : CacheState) (f : Int) (b : Bool) :
    ((get_batch s f b).2).dirty = s.dirty := by
  unfold get_batch
  split
  · rfl
  split
  · rfl
  split
  · rfl
  split <;> rfl

theorem get_batch_batches_lookup_ne (s : CacheState) (f : Int) (b : Bool)
    {g : Int} (h : g ≠ f) :
    List.lookup g ((get_batch s f b).2).batches
      = List.lookup g s.batches := by
  unfold get_batch
  split
  · rfl
  split
  · rfl
  split
  · rfl
  split
  · exact lookup_append_single_ne _ _ h
  · rfl

theorem get_batch_of_dirty (s : CacheState) (f : Int) (b : Bool)
    (h : f ∈ s.dirty) : (get_batch s f b).2 = s := by
  unfold get_batch
  rw [if_pos h]

theorem disjoint_get_batch {s : CacheState} (f : Int) (b : Bool)
    (h : dirtyBatchesDisjoint s) :
    dirtyBatchesDisjoint ((get_batch s f b).2) := by
  intro g hg
  rw [get_batch_dirty_eq] at hg
  by_cases hgf : g = f
  · subst hgf
    rw [get_batch_of_dirty s g b hg]
    exact h g hg
  · rw [get_batch_batches_lookup_ne s f b hgf]
    exact h g hg

theorem disjoint_invalidate_near {s : CacheState} (c r : Int)
    (h : dirtyBatchesDisjoint s) :
    dirtyBatchesDisjoint (invalidate_frames_near s c r) := by
  unfold invalidate_frames_near
  generalize s.entries.map Prod.fst = ks
  induction ks generalizing s with
  | nil => exact h
  | cons k ks ih =>
    rw [List.foldl_cons]
    by_cases hc : ((k - c).natAbs : Int) ≤ r
    · rw [if_pos hc]
      exact ih (disjoint_mark_frame_dirty k h)
    · rw [if_neg hc]
      exact ih h

theorem applyOp_disjoint {s : CacheState} (op : CacheOp)
    (h : dirtyBatchesDisjoint s) : dirtyBatchesDisjoint (applyOp s op) := by
  cases op with
  | add hn f v i p => exact disjoint_add hn f v i p h
  | getBatch f b => exact disjoint_get_batch f b h
  | markDirty f => exact disjoint_mark_frame_dirty f h
  | markAllDirty => intro g _; rfl
  | invalidateNear c r => exact disjoint_invalidate_near c r h
  | evictDistant c r =>
    intro g hg
    exact lookup_filter_none _ (h g hg)
  | clear =>
    intro g hg
    have hde : (applyOp s CacheOp.clear).dirty = ∅ := rfl
    rw [hde] at hg
    exact absurd hg (Finset.not_mem_empty g)

/-- C9: in every state reachable from the initial state by any sequence
of cache operations (add, getBatch, markDirty, markAllDirty,
invalidateNear, evictDistant, clear), no frame is simultaneously in the
dirty set and in the batch cache. -/
theorem dirty_never_batched :
    ∀ (ops : List CacheOp) (g : Int),
      g ∈ (runOps initState ops).dirty →
      List.lookup g (runOps initState ops).batches = none := by
  have main : ∀ (ops : List CacheOp) (s : CacheState),
      dirtyBatchesDisjoint s → dirtyBatchesDisjoint (runOps s ops) := by
    intro ops
    induction ops with
    | nil => exact fun s h => h
    | cons op rest ih =>
      intro s h
      simpa only [runOps, List.foldl_cons] using ih _ (applyOp_disjoint op h)
  intro ops g hg
  refine main ops initState (fun g' hg' => ?_) g hg
  have hde : initState.dirty = ∅ := rfl
  rw [hde] at hg'
  exact absurd hg' (Finset.not_mem_empty g')

theorem dirty_never_batched_witness :
    (5 : Int) ∈ (runOps initState
        [CacheOp.add true 5 [(0, 0, 0)] [[0, 1]] PrimType.LINES,
         CacheOp.getBatch 5 true, CacheOp.markDirty 5]).dirty ∧
    List.lookup 5 (runOps initState
        [CacheOp.add true 5 [(0, 0, 0)] [[0, 1]] PrimType.LINES,
         CacheOp.getBatch 5 true, CacheOp.markDirty 5]).batches = none :=
  ⟨by decide, dirty_never_batched
    [CacheOp.add true 5 [(0, 0, 0)] [[0, 1]] PrimType.LINES,
     CacheOp.getBatch 5 true, CacheOp.markDirty 5] 5 (by decide)⟩

theorem mem_insertByDist (c f a : Int) (l : List Int) :
    a ∈ insertByDist c f l ↔ a = f ∨ a ∈ l := by
  induction l with
  | nil => simp [insertByDist]
  | cons g gs ih =>
    rw [insertByDist]
    by_cases h : distKey c g ≤ distKey c f
    · rw [if_pos h]
      simp only [List.mem_cons, ih]
      tauto
    · rw [if_neg h]
      simp only [List.mem_cons]

theorem pairwise_insertByDist (c f : Int) (l : List Int)
    (h : l.Pairwise (fun a b => distKey c a ≤ distKey c b)) :
    (insertByDist c f l).Pairwise
      (fun a b => distKey c a ≤ distKey c b) := by
  induction l with
  | nil => simp [insertByDist]
  | cons g gs ih =>
    rw [insertByDist]
    rcases List.pairwise_cons.mp h with ⟨hg, hgs⟩
    by_cases hc : distKey c g ≤ distKey c f
    · rw [if_pos hc]
      refine List.pairwise_cons.mpr ⟨?_, ih hgs⟩
      intro b hb
      rcases (mem_insertByDist c f b gs).mp hb with rfl | hbgs
      · exact hc
      · exact hg b hbgs
    · rw [if_neg hc]
      refine List.pairwise_cons.mpr ⟨?_, h⟩
      intro b hb
      rcases List.mem_cons.mp hb with rfl | hbgs
      · omega
      · exact le_trans (by omega) (hg b hbgs)

theorem pairwise_sortByDist (c : Int) (fs : List Int) :
    (sortByDist c fs).Pairwise (fun a b => distKey c a ≤ distKey c b) := by
  have aux : ∀ (l acc : List Int),
      acc.Pairwise (fun a b => distKey c a ≤ distKey c b) →
      (l.foldl (fun acc f => insertByDist c f acc) acc).Pairwise
        (fun a b => distKey c a ≤ distKey c b) := by
    intro l
    induction l with
    | nil => exact fun acc h => h
    | cons f l ih =>
      intro acc h
      rw [List.foldl_cons]
      exact ih _ (pairwise_insertByDist c f acc h)
  exact aux fs [] List.Pairwise.nil

theorem mem_sortByDist (c a : Int) (fs : List Int) :
    a ∈ sortByDist c fs ↔ a ∈ fs := by
  have aux : ∀ (l acc : List Int),
      a ∈ l.foldl (fun acc f => insertByDist c f acc) acc ↔
        a ∈ acc ∨ a ∈ l := by
    intro l
    induction l with
    | nil => simp
    | cons f l ih =>
      intro acc
      rw [List.foldl_cons, ih, mem_insertByDist]
      simp only [List.mem_cons]
      tauto
  rw [sortByDist, aux fs []]
  simp

theorem mem_stepMultiples {step lookAhead i : Nat} (hstep : 0 < step)
    (h : i ∈ stepMultiples step lookAhead) :
    ∃ k, 1 ≤ k ∧ i = step * k ∧ step * k ≤ lookAhead := by
  rcases List.mem_map.mp h with ⟨k, hk, rfl⟩
  rw [List.mem_range] at hk
  refine ⟨k + 1, by omega, rfl, ?_⟩
  have h2 : (k + 1) * step ≤ lookAhead :=
    (Nat.le_div_iff_mul_le hstep).mp (by omega)
  rw [Nat.mul_comm]
  exact h2

/-- C7: with lookAhead = max(framesBefore, framesAfter) + 5, the
precache candidate list contains only not-already-cached frames reachable
from the current frame in positive multiples of frameStep within
lookAhead and inside the active frame range (forward for direction ≥ 0,
backward for direction ≤ 0), is sorted ascending by absolute distance
from the current frame, and is capped at 10 entries; in the concrete
scenario (current 100, framesBefore = framesAfter = 10, frameStep 2,
range 90..110, all frames uncached, direction 0) it is exactly
[102, 98, 104, 96, 106, 94, 108, 92, 110, 90]. -/
theorem precache_candidates_spec :
    ∀ (s : CacheState) (current : Int) (fb fa step : Nat) (rs re : Int)
      (dir : Int),
      0 < step →
      ((get_precache_frames s current fb fa step rs re dir).length ≤ 10 ∧
       (get_precache_frames s current fb fa step rs re dir).Pairwise
         (fun a b => (a - current).natAbs ≤ (b - current).natAbs) ∧
       (∀ f ∈ get_precache_frames s current fb fa step rs re dir,
          is_frame_cached s f = false ∧
          ∃ k, 1 ≤ k ∧ step * k ≤ max fb fa + 5 ∧
            ((0 ≤ dir ∧ f = current + (step * k : Nat) ∧ f ≤ re) ∨
             (dir ≤ 0 ∧ f = current - (step * k : Nat) ∧ rs ≤ f)))) ∧
      get_precache_frames initState 100 10 10 2 90 110 0
        = [102, 98, 104, 96, 106, 94, 108, 92, 110, 90] := by
  refine fun s current fb fa step rs re dir hstep => ⟨⟨?_, ?_, ?_⟩, by decide⟩
  · simp only [get_precache_frames, List.length_take]
    omega
  · simp only [get_precache_frames]
    exact List.Pairwise.sublist (List.take_sublist _ _)
      (pairwise_sortByDist current _)
  · intro f hf
    simp only [get_precache_frames] at hf
    have h1 : f ∈ sortByDist current
        ((if 0 ≤ dir then
            forwardCandidates s current step (max fb fa + 5) re else []) ++
         (if dir ≤ 0 then
            backwardCandidates s current step (max fb fa + 5) rs else [])) :=
      (List.take_sublist 10 _).subset hf
    have hmem := (mem_sortByDist current f _).mp h1
    rcases List.mem_append.mp hmem with hside | hside
    · by_cases hdir : 0 ≤ dir
      · rw [if_pos hdir] at hside
        rcases List.mem_filter.mp hside with ⟨hmap, hcond⟩
        rw [Bool.and_eq_true] at hcond
        rcases hcond with ⟨hre, hnc⟩
        rcases List.mem_map.mp hmap with ⟨i, hi, rfl⟩
        rcases mem_stepMultiples hstep hi with ⟨k, hk1, rfl, hkla⟩
        exact ⟨(by simpa using hnc),
          k, hk1, hkla, Or.inl ⟨hdir, rfl, of_decide_eq_true hre⟩⟩
      · rw [if_neg hdir] at hside
        exact absurd hside (List.not_mem_nil f)
    · by_cases hdir : dir ≤ 0
      · rw [if_pos hdir] at hside
        rcases List.mem_filter.mp hside with ⟨hmap, hcond⟩
        rw [Bool.and_eq_true] at hcond
        rcases hcond with ⟨hrs, hnc⟩
        rcases List.mem_map.mp hmap with ⟨i, hi, rfl⟩
        rcases mem_stepMultiples hstep hi with ⟨k, hk1, rfl, hkla⟩
        exact ⟨(by simpa using hnc),
          k, hk1, hkla, Or.inr ⟨hdir, rfl, of_decide_eq_true hrs⟩⟩
      · rw [if_neg hdir] at hside
        exact absurd hside (List.not_mem_nil f)

theorem precache_candidates_spec_witness :
    get_precache_frames initState 100 10 10 2 90 110 0
      = [102, 98, 104, 96, 106, 94, 108, 92, 110, 90] :=
  (precache_candidates_spec initState 100 10 10 2 90 110 0 (by decide)).2

end OnionSkin
